import Mathlib

/-!
Shallow embedding of the option-pricing core (`option_pricing/models.py`,
`option_pricing/options.py`): the data model (`Underlying`, `Option` and its
payoff variants), the Cox-Ross-Rubinstein binomial engine
(`price_tree`, `option_payoff_tree`, `recurse_option_tree`,
`calc_option_price`) and the Black-Scholes closed-form engine
(`BlackScholesModel.calc_option_price`).  Machine floats are modelled as
real numbers; `scipy.stats.norm.cdf` is modelled as the cumulative
distribution function of the standard Gaussian.
-/

namespace OptionPricing

/-- `Underlying` dataclass from `options.py`. -/
structure Underlying where
  base_beginning : ℝ
  volatility : ℝ
  dividend : ℝ
  interest_rate : ℝ

/-- The payoff variants: the subclasses `Call`, `Put` and `SprintCertificate`
of `Option` in `options.py`; `SprintCertificate` carries its extra fields
`cap` and `factor`. -/
inductive PayoffKind where
  | call : PayoffKind
  | put : PayoffKind
  | sprint (cap : ℝ) (factor : ℝ) : PayoffKind

/-- `Option` dataclass from `options.py` together with the variant tag that
Python represents through subclassing. -/
structure Option where
  underlying : Underlying
  T : ℝ
  strike_price : ℝ
  american : Bool
  kind : PayoffKind

/-- The `option_payoff` method of each variant in `options.py`:
`Call`: `np.maximum(0, price - strike_price)`;
`Put`: `np.maximum(0, strike_price - price)`;
`SprintCertificate`: `np.minimum(cap_payout, np.maximum(price - strike, (price - strike) * factor)) + price`
with `cap_payout = (cap - strike) * factor`.  The numpy functions act
elementwise, so the scalar function below is the elementwise action. -/
noncomputable def option_payoff (o : Option) (price : ℝ) : ℝ :=
  match o.kind with
  | .call => max 0 (price - o.strike_price)
  | .put => max 0 (o.strike_price - price)
  | .sprint cap factor =>
      min ((cap - o.strike_price) * factor)
        (max (price - o.strike_price) ((price - o.strike_price) * factor)) + price

/-- `BinomialModel.price_tree` (models.py lines 41-56): a `(n+1) × (n+1)`
array initialised by `np.zeros`, with `tree[u][j] = price_beginning * up**u * down**(j-u)`
for `0 ≤ u ≤ j ≤ n` and the remaining entries left at `0`. -/
noncomputable def price_tree (periods : ℕ) (price_beginning up down : ℝ)
    (i j : ℕ) : ℝ :=
  if i ≤ j ∧ j ≤ periods then price_beginning * up ^ i * down ^ (j - i) else 0

/-- `BinomialModel.option_payoff_tree` (models.py lines 58-66):
`option.option_payoff(stock_tree)`, i.e. the payoff applied elementwise to
the stock tree. -/
noncomputable def option_payoff_tree (stock_tree : ℕ → ℕ → ℝ) (o : Option) :
    ℕ → ℕ → ℝ :=
  fun i j => option_payoff o (stock_tree i j)

/-- `BinomialModel.recurse_option_tree` (models.py lines 68-93).  The Python
code makes a `deepcopy` of `option_tree` and overwrites cells `[i][j]` with
`i ≤ j < periods` in place, walking `j` from `periods - 1` down to `0`; when
cell `[i][j]` is written, column `j+1` already holds its final values while
the read of `price_tree[i][j]` in the American branch happens before the
write of that same cell, hence still returns the copied payoff value.  That
read/write order is exactly this recursion: cells outside the written region
keep the payoff value `option_tree i j`. -/
noncomputable def recurse_option_tree (periods : ℕ) (option_tree : ℕ → ℕ → ℝ)
    (o : Option) (pu pd r div delta_t : ℝ) (i j : ℕ) : ℝ :=
  if h : i ≤ j ∧ j < periods then
    let contv := (pu * recurse_option_tree periods option_tree o pu pd r div delta_t (i + 1) (j + 1)
        + pd * recurse_option_tree periods option_tree o pu pd r div delta_t i (j + 1))
      * Real.exp (-1 * (r - div) * delta_t)
    if o.american then max contv (option_tree i j) else contv
  else option_tree i j
termination_by periods - j
decreasing_by
  all_goals omega

/-- The up factor `u = math.exp(volatility * math.sqrt(delta_t))` derived in
`calc_option_price` (models.py line 108), with `delta_t = T / periods`. -/
noncomputable def binomial_u (o : Option) (periods : ℕ) : ℝ :=
  Real.exp (o.underlying.volatility * Real.sqrt (o.T / (periods : ℝ)))

/-- The down factor `d = 1 / u` (models.py line 109). -/
noncomputable def binomial_d (o : Option) (periods : ℕ) : ℝ :=
  1 / binomial_u o periods

/-- The risk-neutral up probability
`pu = (np.exp((r - div) * delta_t) - d) / (u - d)` (models.py line 110). -/
noncomputable def binomial_pu (o : Option) (periods : ℕ) : ℝ :=
  (Real.exp ((o.underlying.interest_rate - o.underlying.dividend) * (o.T / (periods : ℝ)))
      - binomial_d o periods)
    / (binomial_u o periods - binomial_d o periods)

/-- Return value of `BinomialModel.calc_option_price`: the price
`price_tree[0][0]` together with the diagnostics dict
`{"payoff_tree": ..., "stock_tree": ..., "price_tree": ...}`. -/
structure CalcResult where
  price : ℝ
  payoff_tree : ℕ → ℕ → ℝ
  stock_tree : ℕ → ℕ → ℝ
  price_tree : ℕ → ℕ → ℝ

/-- `BinomialModel.calc_option_price` (models.py lines 95-124): derive
`delta_t`, `u`, `d`, `pu`, `pd`, build the stock tree, apply the payoff,
run the backward recursion, and return `price_tree[0][0]` with the three
trees as diagnostics.  The source performs no validity check of any kind. -/
noncomputable def calc_option_price (o : Option) (periods : ℕ) : CalcResult :=
  let T := o.T
  let div := o.underlying.dividend
  let r := o.underlying.interest_rate
  let delta_t := T / (periods : ℝ)
  let u := binomial_u o periods
  let d := binomial_d o periods
  let pu := binomial_pu o periods
  let pd := 1 - pu
  let stock_tree := price_tree periods o.underlying.base_beginning u d
  let payoff_tree := option_payoff_tree stock_tree o
  let pt := recurse_option_tree periods payoff_tree o pu pd r div delta_t
  { price := pt 0 0
    payoff_tree := payoff_tree
    stock_tree := stock_tree
    price_tree := pt }

/-- The value tree produced by the backward recursion inside
`calc_option_price`, as a standalone definition for stating theorems. -/
noncomputable def binomial_value_tree (o : Option) (periods : ℕ) : ℕ → ℕ → ℝ :=
  recurse_option_tree periods
    (option_payoff_tree
      (price_tree periods o.underlying.base_beginning (binomial_u o periods)
        (binomial_d o periods)) o)
    o (binomial_pu o periods) (1 - binomial_pu o periods)
    o.underlying.interest_rate o.underlying.dividend (o.T / (periods : ℝ))

/-- `BinomialModel.calc_option_price` including the Python runtime-error
behaviour of its arithmetic.  The source contains no explicit validation;
the only ways it can fail are the interpreter's own exceptions:
`T / self.periods` raises `ZeroDivisionError` when `periods == 0`,
`math.sqrt(delta_t)` raises `ValueError` when `delta_t < 0`, and
`np.zeros((periods + 1, periods + 1))` raises `ValueError` when
`periods < 0`.  Every other input returns a number. -/
noncomputable def calc_option_price_checked (o : Option) (periods : ℤ) :
    Except String CalcResult :=
  if periods = 0 then .error "ZeroDivisionError: float division by zero"
  else if o.T / (periods : ℝ) < 0 then .error "ValueError: math domain error"
  else if periods < 0 then .error "ValueError: negative dimensions are not allowed"
  else .ok (calc_option_price o periods.toNat)

/-- `scipy.stats.norm.cdf(x, 0.0, 1.0)`: the cumulative distribution
function of the standard Gaussian. -/
noncomputable def normal_cdf (x : ℝ) : ℝ :=
  ∫ t in Set.Iic x, ProbabilityTheory.gaussianPDFReal 0 1 t

/-- `d1` of `BlackScholesModel.calc_option_price` (models.py lines 140-151). -/
noncomputable def bs_d1 (o : Option) : ℝ :=
  (Real.log (o.underlying.base_beginning / o.strike_price)
      + ((o.underlying.interest_rate - o.underlying.dividend)
          + 0.5 * o.underlying.volatility ^ 2) * o.T)
    / (o.underlying.volatility * Real.sqrt o.T)

/-- `d2` of `BlackScholesModel.calc_option_price` (models.py lines 152-163). -/
noncomputable def bs_d2 (o : Option) : ℝ :=
  (Real.log (o.underlying.base_beginning / o.strike_price)
      + ((o.underlying.interest_rate - o.underlying.dividend)
          - 0.5 * o.underlying.volatility ^ 2) * o.T)
    / (o.underlying.volatility * Real.sqrt o.T)

/-- The `Call` branch of `BlackScholesModel.calc_option_price`
(models.py lines 169-173). -/
noncomputable def bs_call_price (o : Option) : ℝ :=
  o.underlying.base_beginning * Real.exp (-o.underlying.dividend * o.T)
      * normal_cdf (bs_d1 o)
    - o.strike_price * Real.exp (-o.underlying.interest_rate * o.T)
      * normal_cdf (bs_d2 o)

/-- The `Put` branch of `BlackScholesModel.calc_option_price`
(models.py lines 174-180). -/
noncomputable def bs_put_price (o : Option) : ℝ :=
  o.strike_price * Real.exp (-o.underlying.interest_rate * o.T)
      * normal_cdf (-bs_d2 o)
    - o.underlying.base_beginning * Real.exp (-o.underlying.dividend * o.T)
      * normal_cdf (-bs_d1 o)

/-- `BlackScholesModel.calc_option_price` (models.py lines 137-184): the
`isinstance` dispatch on `Call` / `Put`, raising
`RuntimeError(f"Black Scholes not implemented for {type(option)}.")` for
any other payoff variant. -/
noncomputable def black_scholes_calc_option_price (o : Option) : Except String ℝ :=
  match o.kind with
  | .call => .ok (bs_call_price o)
  | .put => .ok (bs_put_price o)
  | .sprint _ _ => .error "Black Scholes not implemented for SprintCertificate."

/-! ### Sample contracts used for concrete instantiations -/

/-- The underlying used by concrete examples: spot 100, volatility 1,
no dividend, zero rate. -/
noncomputable def und100 : Underlying := ⟨100, 1, 0, 0⟩

/-- European put, strike 100, maturity 1, on `und100`. -/
noncomputable def euro_put : Option := ⟨und100, 1, 100, false, .put⟩

/-- American put, strike 100, maturity 1, on `und100`. -/
noncomputable def amer_put : Option := ⟨und100, 1, 100, true, .put⟩

/-- European call, strike 100, maturity 1, on `und100`. -/
noncomputable def euro_call_100 : Option := ⟨und100, 1, 100, false, .call⟩

/-- A sprint certificate: cap 120, participation factor 2, strike 100. -/
noncomputable def sprint_sample : Option := ⟨und100, 1, 100, false, .sprint 120 2⟩

/-- A put whose maturity is zero (degenerate input of claim C5). -/
noncomputable def zero_maturity_put : Option := ⟨und100, 0, 100, false, .put⟩

/-- Call with strong positive drift (`r = 2`, `volatility = 1`, `T = 1`):
its derived risk-neutral probability exceeds `1`. -/
noncomputable def drift_call : Option := ⟨⟨1, 1, 0, 2⟩, 1, 1, false, .call⟩

/-- American call on a crashing underlying (`r = -2`, `volatility = 1`,
`T = 2`, spot 1, strike 3): its derived risk-neutral probability is
negative. -/
noncomputable def crash_amer_call : Option := ⟨⟨1, 1, 0, -2⟩, 2, 3, true, .call⟩

/-- Same contract as `crash_amer_call` with European exercise. -/
noncomputable def crash_euro_call : Option := ⟨⟨1, 1, 0, -2⟩, 2, 3, false, .call⟩

/-! ### Helper lemmas about the backward recursion -/

theorem recurse_option_tree_base (periods : ℕ) (tree : ℕ → ℕ → ℝ) (o : Option)
    (pu pd r div dt : ℝ) (i j : ℕ) (hn : ¬(i ≤ j ∧ j < periods)) :
    recurse_option_tree periods tree o pu pd r div dt i j = tree i j := by
  rw [recurse_option_tree]
  simp [hn]

theorem recurse_option_tree_step_european (periods : ℕ) (tree : ℕ → ℕ → ℝ)
    (o : Option) (pu pd r div dt : ℝ) (i j : ℕ) (ham : o.american = false)
    (hij : i ≤ j) (hj : j < periods) :
    recurse_option_tree periods tree o pu pd r div dt i j
      = (pu * recurse_option_tree periods tree o pu pd r div dt (i + 1) (j + 1)
          + pd * recurse_option_tree periods tree o pu pd r div dt i (j + 1))
        * Real.exp (-1 * (r - div) * dt) := by
  rw [recurse_option_tree]
  simp [hij, hj, ham]

theorem recurse_option_tree_step_american (periods : ℕ) (tree : ℕ → ℕ → ℝ)
    (o : Option) (pu pd r div dt : ℝ) (i j : ℕ) (ham : o.american = true)
    (hij : i ≤ j) (hj : j < periods) :
    recurse_option_tree periods tree o pu pd r div dt i j
      = max ((pu * recurse_option_tree periods tree o pu pd r div dt (i + 1) (j + 1)
            + pd * recurse_option_tree periods tree o pu pd r div dt i (j + 1))
          * Real.exp (-1 * (r - div) * dt)) (tree i j) := by
  rw [recurse_option_tree]
  simp [hij, hj, ham]

/-- Backward induction is monotone in the exercise style: with nonnegative
weights, the American recursion dominates the European one on every node. -/
theorem recurse_option_tree_american_ge (periods : ℕ) (tree : ℕ → ℕ → ℝ)
    (oA oE : Option) (hA : oA.american = true) (hE : oE.american = false)
    (pu pd r div dt : ℝ) (hpu : 0 ≤ pu) (hpd : 0 ≤ pd) (i j : ℕ) :
    recurse_option_tree periods tree oE pu pd r div dt i j
      ≤ recurse_option_tree periods tree oA pu pd r div dt i j := by
  suffices h : ∀ k i j, periods - j ≤ k →
      recurse_option_tree periods tree oE pu pd r div dt i j
        ≤ recurse_option_tree periods tree oA pu pd r div dt i j from
    h (periods - j) i j le_rfl
  intro k
  induction k with
  | zero =>
    intro i j hk
    have hn : ¬(i ≤ j ∧ j < periods) := by omega
    rw [recurse_option_tree_base _ _ _ _ _ _ _ _ _ _ hn,
      recurse_option_tree_base _ _ _ _ _ _ _ _ _ _ hn]
  | succ k ih =>
    intro i j hk
    by_cases hcond : i ≤ j ∧ j < periods
    · obtain ⟨hij, hj⟩ := hcond
      rw [recurse_option_tree_step_european _ _ _ _ _ _ _ _ _ _ hE hij hj,
        recurse_option_tree_step_american _ _ _ _ _ _ _ _ _ _ hA hij hj]
      refine le_trans ?_ (le_max_left _ _)
      have h1 := ih (i + 1) (j + 1) (by omega)
      have h2 := ih i (j + 1) (by omega)
      have hexp : (0 : ℝ) ≤ Real.exp (-1 * (r - div) * dt) := (Real.exp_pos _).le
      refine mul_le_mul_of_nonneg_right (add_le_add ?_ ?_) hexp
      · exact mul_le_mul_of_nonneg_left h1 hpu
      · exact mul_le_mul_of_nonneg_left h2 hpd
    · rw [recurse_option_tree_base _ _ _ _ _ _ _ _ _ _ hcond,
        recurse_option_tree_base _ _ _ _ _ _ _ _ _ _ hcond]

/-! ### Helper lemmas about the normal distribution -/

theorem gaussianPDFReal_std_even (t : ℝ) :
    ProbabilityTheory.gaussianPDFReal 0 1 (-t) = ProbabilityTheory.gaussianPDFReal 0 1 t := by
  simp [ProbabilityTheory.gaussianPDFReal, neg_sq]

/-- The standard normal CDF satisfies `N(x) + N(-x) = 1`. -/
theorem normal_cdf_add_normal_cdf_neg (x : ℝ) :
    normal_cdf x + normal_cdf (-x) = 1 := by
  unfold normal_cdf
  have hneg : (∫ t in Set.Iic (-x), ProbabilityTheory.gaussianPDFReal 0 1 t)
      = ∫ t in Set.Ioi x, ProbabilityTheory.gaussianPDFReal 0 1 t := by
    have h1 : (∫ t in Set.Iic (-x), ProbabilityTheory.gaussianPDFReal 0 1 t)
        = ∫ t in Set.Iic (-x), ProbabilityTheory.gaussianPDFReal 0 1 (-t) := by
      refine MeasureTheory.setIntegral_congr_fun measurableSet_Iic (fun t _ => ?_)
      rw [gaussianPDFReal_std_even]
    rw [h1, integral_comp_neg_Iic, neg_neg]
  rw [hneg]
  have hsplit := MeasureTheory.integral_add_compl
    (measurableSet_Iic : MeasurableSet (Set.Iic x))
    (ProbabilityTheory.integrable_gaussianPDFReal 0 1)
  rw [Set.compl_Iic] at hsplit
  rw [hsplit, ProbabilityTheory.integral_gaussianPDFReal_eq_one 0 one_ne_zero]

/-! ### Claim theorems -/

/-- C1: for every contract and periods `n ≥ 1`, `calc_option_price` returns
`value[0][0]`, and for a European contract the backward-induction value at
each node `[i][j]` with `0 ≤ i ≤ j < n` equals
`(p_u * value[i+1][j+1] + p_d * value[i][j+1]) * exp(-(r - q) * delta_t)`
with `delta_t = T / n`. -/
theorem european_backward_induction (o : Option) (n : ℕ) (hn : 1 ≤ n)
    (ham : o.american = false) (i j : ℕ) (hij : i ≤ j) (hj : j < n) :
    (calc_option_price o n).price = binomial_value_tree o n 0 0 ∧
    binomial_value_tree o n i j
      = (binomial_pu o n * binomial_value_tree o n (i + 1) (j + 1)
          + (1 - binomial_pu o n) * binomial_value_tree o n i (j + 1))
        * Real.exp (-1 * (o.underlying.interest_rate - o.underlying.dividend)
            * (o.T / (n : ℝ))) := by
  exact ⟨rfl, recurse_option_tree_step_european _ _ _ _ _ _ _ _ _ _ ham hij hj⟩

/-- Witness for C1 at the European put `euro_put` with `n = 2`, node
`i = 0`, `j = 1`. -/
theorem european_backward_induction_witness :
    (1 ≤ 2 ∧ euro_put.american = false ∧ 0 ≤ 1 ∧ 1 < 2) ∧
    ((calc_option_price euro_put 2).price = binomial_value_tree euro_put 2 0 0 ∧
      binomial_value_tree euro_put 2 0 1
        = (binomial_pu euro_put 2 * binomial_value_tree euro_put 2 (0 + 1) (1 + 1)
            + (1 - binomial_pu euro_put 2) * binomial_value_tree euro_put 2 0 (1 + 1))
          * Real.exp (-1 * (euro_put.underlying.interest_rate - euro_put.underlying.dividend)
              * (euro_put.T / ((2 : ℕ) : ℝ)))) :=
  ⟨⟨by norm_num, rfl, by norm_num, by norm_num⟩,
    european_backward_induction euro_put 2 (by norm_num) rfl 0 1 (by norm_num) (by norm_num)⟩

/-- C2: for an American contract, the value `calc_option_price` computes at
each interior node `[i][j]` equals
`max(continuation, payoff(stock_lattice[i][j]))`, where the intrinsic value
is the contract's own payoff function applied to that node's lattice
price. -/
theorem american_early_exercise (o : Option) (n : ℕ) (ham : o.american = true)
    (i j : ℕ) (hij : i ≤ j) (hj : j < n) :
    (calc_option_price o n).price_tree i j
      = max ((binomial_pu o n * (calc_option_price o n).price_tree (i + 1) (j + 1)
            + (1 - binomial_pu o n) * (calc_option_price o n).price_tree i (j + 1))
          * Real.exp (-1 * (o.underlying.interest_rate - o.underlying.dividend)
              * (o.T / (n : ℝ))))
        (option_payoff o ((calc_option_price o n).stock_tree i j)) :=
  recurse_option_tree_step_american _ _ _ _ _ _ _ _ _ _ ham hij hj

/-- Witness for C2 at the American put `amer_put` with `n = 2`, node
`i = 0`, `j = 1`. -/
theorem american_early_exercise_witness :
    (amer_put.american = true ∧ 0 ≤ 1 ∧ 1 < 2) ∧
    (calc_option_price amer_put 2).price_tree 0 1
      = max ((binomial_pu amer_put 2 * (calc_option_price amer_put 2).price_tree (0 + 1) (1 + 1)
            + (1 - binomial_pu amer_put 2) * (calc_option_price amer_put 2).price_tree 0 (1 + 1))
          * Real.exp (-1 * (amer_put.underlying.interest_rate - amer_put.underlying.dividend)
              * (amer_put.T / ((2 : ℕ) : ℝ))))
        (option_payoff amer_put ((calc_option_price amer_put 2).stock_tree 0 1)) :=
  ⟨⟨rfl, by norm_num, by norm_num⟩,
    american_early_exercise amer_put 2 rfl 0 1 (by norm_num) (by norm_num)⟩

/-- C3: the stock lattice satisfies
`lattice[i][j] = spot * u^i * d^(j-i)` for `0 ≤ i ≤ j ≤ n`, with
`u = exp(volatility * sqrt(delta_t))`, `d = 1/u` and `u * d = 1`. -/
theorem lattice_recombination (o : Option) (n : ℕ) (hn : 1 ≤ n)
    (hspot : 0 < o.underlying.base_beginning) (i j : ℕ) (hij : i ≤ j) (hj : j ≤ n) :
    (calc_option_price o n).stock_tree i j
      = o.underlying.base_beginning * binomial_u o n ^ i * binomial_d o n ^ (j - i) ∧
    binomial_u o n = Real.exp (o.underlying.volatility * Real.sqrt (o.T / (n : ℝ))) ∧
    binomial_d o n = 1 / binomial_u o n ∧
    binomial_u o n * binomial_d o n = 1 := by
  refine ⟨?_, rfl, rfl, ?_⟩
  · show price_tree n o.underlying.base_beginning (binomial_u o n) (binomial_d o n) i j = _
    rw [price_tree, if_pos ⟨hij, hj⟩]
  · rw [binomial_d, mul_one_div]
    exact div_self (Real.exp_ne_zero _)

/-- Witness for C3 at `euro_put` with `n = 2`, node `i = 1`, `j = 2`. -/
theorem lattice_recombination_witness :
    (1 ≤ 2 ∧ 0 < euro_put.underlying.base_beginning ∧ 1 ≤ 2 ∧ 2 ≤ 2) ∧
    ((calc_option_price euro_put 2).stock_tree 1 2
        = euro_put.underlying.base_beginning * binomial_u euro_put 2 ^ 1
          * binomial_d euro_put 2 ^ (2 - 1) ∧
      binomial_u euro_put 2
        = Real.exp (euro_put.underlying.volatility * Real.sqrt (euro_put.T / ((2 : ℕ) : ℝ))) ∧
      binomial_d euro_put 2 = 1 / binomial_u euro_put 2 ∧
      binomial_u euro_put 2 * binomial_d euro_put 2 = 1) :=
  ⟨⟨by norm_num, by norm_num [euro_put, und100], by norm_num, by norm_num⟩,
    lattice_recombination euro_put 2 (by norm_num) (by norm_num [euro_put, und100]) 1 2
      (by norm_num) (by norm_num)⟩

/-- C6: `BlackScholesModel.calc_option_price` raises the
unsupported-contract error exactly on non-vanilla payoff variants: it
errors on every `SprintCertificate` and returns a price for `Call` and
`Put`. -/
theorem black_scholes_unsupported_contract (o : Option) :
    (∀ cap factor, o.kind = .sprint cap factor →
        black_scholes_calc_option_price o
          = .error "Black Scholes not implemented for SprintCertificate.") ∧
    (o.kind = .call ∨ o.kind = .put →
        (black_scholes_calc_option_price o).isOk = true) := by
  obtain ⟨u, T, K, am, kind⟩ := o
  constructor
  · intro cap factor hk
    cases hk
    rfl
  · intro hk
    rcases hk with h | h <;> cases h <;> rfl

/-- Witness for C6: the error on `sprint_sample` and a price on
`euro_call_100`. -/
theorem black_scholes_unsupported_contract_witness :
    black_scholes_calc_option_price sprint_sample
      = .error "Black Scholes not implemented for SprintCertificate." ∧
    (black_scholes_calc_option_price euro_call_100).isOk = true :=
  ⟨(black_scholes_unsupported_contract sprint_sample).1 120 2 rfl,
    (black_scholes_unsupported_contract euro_call_100).2 (Or.inl rfl)⟩

/-- C9: the payoff functions of the three variants are
`max(0, S - K)`, `max(0, K - S)` and
`min((cap - K) * factor, max(S - K, (S - K) * factor)) + S`, with the
stated boundary values at strike 100. -/
theorem payoff_formulas :
    (∀ (u : Underlying) (T K S : ℝ) (am : Bool),
        option_payoff ⟨u, T, K, am, .call⟩ S = max 0 (S - K)) ∧
    (∀ (u : Underlying) (T K S : ℝ) (am : Bool),
        option_payoff ⟨u, T, K, am, .put⟩ S = max 0 (K - S)) ∧
    (∀ (u : Underlying) (T K S cap factor : ℝ) (am : Bool),
        option_payoff ⟨u, T, K, am, .sprint cap factor⟩ S
          = min ((cap - K) * factor) (max (S - K) ((S - K) * factor)) + S) ∧
    option_payoff euro_call_100 100 = 0 ∧
    option_payoff euro_call_100 150 = 50 ∧
    option_payoff euro_call_100 50 = 0 ∧
    option_payoff euro_put 50 = 50 ∧
    option_payoff euro_put 150 = 0 := by
  refine ⟨fun u T K S am => rfl, fun u T K S am => rfl, fun u T K S cap factor am => rfl,
    ?_, ?_, ?_, ?_, ?_⟩ <;>
    norm_num [option_payoff, euro_call_100, euro_put, und100]

/-- C10: the diagnostics returned by `calc_option_price` still hold the
pristine payoff tree (the contract's payoff applied elementwise to the
stock lattice) after pricing — `recurse_option_tree` works on a deep copy —
and the value tree is computed from that unchanged payoff tree, with the
price being its root. -/
theorem payoff_tree_unchanged (o : Option) (n i j : ℕ) :
    (calc_option_price o n).payoff_tree i j
      = option_payoff o ((calc_option_price o n).stock_tree i j) ∧
    (calc_option_price o n).price_tree i j
      = recurse_option_tree n ((calc_option_price o n).payoff_tree) o
        (binomial_pu o n) (1 - binomial_pu o n)
        o.underlying.interest_rate o.underlying.dividend (o.T / (n : ℝ)) i j ∧
    (calc_option_price o n).price = (calc_option_price o n).price_tree 0 0 :=
  ⟨rfl, rfl, rfl⟩

/-- C4 counterexample: for `drift_call` (rate 2, volatility 1, T 1) with one
period the derived risk-neutral probability exceeds `1`, yet
`calc_option_price` silently returns a price instead of failing with an
invalid-model error. -/
theorem invalid_model_not_rejected :
    1 < binomial_pu drift_call 1 ∧
    binomial_u drift_call 1 ≠ binomial_d drift_call 1 ∧
    (calc_option_price_checked drift_call 1).isOk = true := by
  have h1 : binomial_u drift_call 1 = Real.exp 1 := by
    unfold binomial_u drift_call
    norm_num [Real.sqrt_one]
  have hd : binomial_d drift_call 1 = (Real.exp 1)⁻¹ := by
    unfold binomial_d
    rw [h1, one_div]
  have hpu : binomial_pu drift_call 1
      = (Real.exp 2 - (Real.exp 1)⁻¹) / (Real.exp 1 - (Real.exp 1)⁻¹) := by
    unfold binomial_pu
    rw [hd, h1]
    norm_num [drift_call]
  have hinv : (Real.exp 1)⁻¹ < Real.exp 1 := by
    rw [← Real.exp_neg]
    exact Real.exp_lt_exp.2 (by norm_num)
  have hden : (0 : ℝ) < Real.exp 1 - (Real.exp 1)⁻¹ := by linarith
  refine ⟨?_, ?_, ?_⟩
  · rw [hpu, one_lt_div hden]
    have : Real.exp 1 < Real.exp 2 := Real.exp_lt_exp.2 (by norm_num)
    linarith
  · rw [h1, hd]
    exact ne_of_gt hinv
  · have h0 : ¬ ((1 : ℤ) = 0) := by norm_num
    have hdt : ¬ (drift_call.T / (((1 : ℤ) : ℤ) : ℝ) < 0) := by norm_num [drift_call]
    have hneg : ¬ ((1 : ℤ) < 0) := by norm_num
    unfold calc_option_price_checked
    rw [if_neg h0, if_neg hdt, if_neg hneg]
    rfl

/-- C4 (amended): `calc_option_price` performs no invalid-model check at
all: whenever `periods ≥ 1` and `maturity ≥ 0` it returns a price, even
when `u = d` or `p_u` lies outside `[0, 1]`. -/
theorem binomial_no_validation (o : Option) (n : ℤ) (hn : 0 < n) (hT : 0 ≤ o.T) :
    calc_option_price_checked o n = .ok (calc_option_price o n.toNat) := by
  have h0 : ¬ (n = 0) := by omega
  have hncast : (0 : ℝ) ≤ (n : ℝ) := by exact_mod_cast hn.le
  have hdt : ¬ (o.T / (n : ℝ) < 0) := not_lt.2 (div_nonneg hT hncast)
  have hneg : ¬ (n < 0) := by omega
  unfold calc_option_price_checked
  rw [if_neg h0, if_neg hdt, if_neg hneg]

/-- Witness for the amended C4 at `euro_put`, one period. -/
theorem binomial_no_validation_witness :
    ((0 : ℤ) < 1 ∧ (0 : ℝ) ≤ euro_put.T) ∧
    calc_option_price_checked euro_put 1 = .ok (calc_option_price euro_put (1 : ℤ).toNat) :=
  ⟨⟨by norm_num, by norm_num [euro_put]⟩,
    binomial_no_validation euro_put 1 (by norm_num) (by norm_num [euro_put])⟩

/-- C5 counterexample: a contract with maturity `0` does not make the
binomial engine raise a configuration error — `calc_option_price` runs
through and returns a number. -/
theorem zero_maturity_returns_price :
    (calc_option_price_checked zero_maturity_put 1).isOk = true := by
  have h0 : ¬ ((1 : ℤ) = 0) := by norm_num
  have hdt : ¬ (zero_maturity_put.T / (((1 : ℤ) : ℤ) : ℝ) < 0) := by
    norm_num [zero_maturity_put]
  have hneg : ¬ ((1 : ℤ) < 0) := by norm_num
  unfold calc_option_price_checked
  rw [if_neg h0, if_neg hdt, if_neg hneg]
  rfl

/-- C5 (amended): `BinomialModel(0)` fails before any lattice work with the
interpreter's `ZeroDivisionError` (and negative periods with positive
maturity fail in `math.sqrt`), but a contract with `maturity = 0` is not
rejected: the engine returns a number. -/
theorem degenerate_inputs (o : Option) (n : ℤ) :
    calc_option_price_checked o 0 = .error "ZeroDivisionError: float division by zero" ∧
    (n < 0 → 0 < o.T →
      calc_option_price_checked o n = .error "ValueError: math domain error") ∧
    (0 < n → o.T = 0 → (calc_option_price_checked o n).isOk = true) := by
  refine ⟨?_, ?_, ?_⟩
  · unfold calc_option_price_checked
    rw [if_pos rfl]
  · intro hn hT
    have h0 : ¬ (n = 0) := by omega
    have hncast : ((n : ℤ) : ℝ) < 0 := by exact_mod_cast hn
    unfold calc_option_price_checked
    rw [if_neg h0, if_pos (div_neg_of_pos_of_neg hT hncast)]
  · intro hn hT
    have h0 : ¬ (n = 0) := by omega
    have hdt : ¬ (o.T / (n : ℝ) < 0) := by
      rw [hT, zero_div]
      exact lt_irrefl 0
    have hneg : ¬ (n < 0) := by omega
    unfold calc_option_price_checked
    rw [if_neg h0, if_neg hdt, if_neg hneg]
    rfl

/-- Witness for the amended C5: the `periods = 0` error, the negative
periods error, and the maturity-zero contract returning a number. -/
theorem degenerate_inputs_witness :
    (calc_option_price_checked euro_put 0
        = .error "ZeroDivisionError: float division by zero") ∧
    ((-1 : ℤ) < 0 ∧ 0 < euro_put.T ∧
      calc_option_price_checked euro_put (-1)
        = .error "ValueError: math domain error") ∧
    ((0 : ℤ) < 1 ∧ zero_maturity_put.T = 0 ∧
      (calc_option_price_checked zero_maturity_put 1).isOk = true) :=
  ⟨(degenerate_inputs euro_put 0).1,
    ⟨by norm_num, by norm_num [euro_put],
      (degenerate_inputs euro_put (-1)).2.1 (by norm_num) (by norm_num [euro_put])⟩,
    ⟨by norm_num, rfl, (degenerate_inputs zero_maturity_put 1).2.2 (by norm_num) rfl⟩⟩

/-- Parity of the two Black-Scholes branches for an arbitrary contract:
`call - put = S * exp(-q*T) - K * exp(-r*T)`. -/
theorem bs_parity_core (o : Option) :
    bs_call_price o - bs_put_price o
      = o.underlying.base_beginning * Real.exp (-o.underlying.dividend * o.T)
        - o.strike_price * Real.exp (-o.underlying.interest_rate * o.T) := by
  have h1 := normal_cdf_add_normal_cdf_neg (bs_d1 o)
  have h2 := normal_cdf_add_normal_cdf_neg (bs_d2 o)
  unfold bs_call_price bs_put_price
  linear_combination
    (o.underlying.base_beginning * Real.exp (-o.underlying.dividend * o.T)) * h1
      - (o.strike_price * Real.exp (-o.underlying.interest_rate * o.T)) * h2

/-- C8: put-call parity of `BlackScholesModel.calc_option_price`: for every
`S, K, T, vol > 0` and all rates, the Call price minus the Put price with
identical parameters equals `S * exp(-q*T) - K * exp(-r*T)`. -/
theorem black_scholes_put_call_parity (S K T r q vol : ℝ) (am : Bool)
    (hS : 0 < S) (hK : 0 < K) (hT : 0 < T) (hvol : 0 < vol) :
    black_scholes_calc_option_price ⟨⟨S, vol, q, r⟩, T, K, am, .call⟩
      = .ok (bs_call_price ⟨⟨S, vol, q, r⟩, T, K, am, .call⟩) ∧
    black_scholes_calc_option_price ⟨⟨S, vol, q, r⟩, T, K, am, .put⟩
      = .ok (bs_put_price ⟨⟨S, vol, q, r⟩, T, K, am, .put⟩) ∧
    bs_call_price ⟨⟨S, vol, q, r⟩, T, K, am, .call⟩
        - bs_put_price ⟨⟨S, vol, q, r⟩, T, K, am, .put⟩
      = S * Real.exp (-q * T) - K * Real.exp (-r * T) := by
  refine ⟨rfl, rfl, ?_⟩
  exact bs_parity_core ⟨⟨S, vol, q, r⟩, T, K, am, .call⟩

/-- Witness for C8 at `S = K = T = vol = 1`, `r = q = 0`. -/
theorem black_scholes_put_call_parity_witness :
    ((0 : ℝ) < 1) ∧
    (black_scholes_calc_option_price ⟨⟨1, 1, 0, 0⟩, 1, 1, false, .call⟩
        = .ok (bs_call_price ⟨⟨1, 1, 0, 0⟩, 1, 1, false, .call⟩) ∧
      black_scholes_calc_option_price ⟨⟨1, 1, 0, 0⟩, 1, 1, false, .put⟩
        = .ok (bs_put_price ⟨⟨1, 1, 0, 0⟩, 1, 1, false, .put⟩) ∧
      bs_call_price ⟨⟨1, 1, 0, 0⟩, 1, 1, false, .call⟩
          - bs_put_price ⟨⟨1, 1, 0, 0⟩, 1, 1, false, .put⟩
        = 1 * Real.exp (-0 * 1) - 1 * Real.exp (-0 * 1)) :=
  ⟨by norm_num,
    black_scholes_put_call_parity 1 1 1 0 0 1 false
      (by norm_num) (by norm_num) (by norm_num) (by norm_num)⟩

/-! ### Fully unrolled two-period recursions, used by the C7 analysis -/

theorem recurse_option_tree_two_european (tree : ℕ → ℕ → ℝ) (o : Option)
    (hE : o.american = false) (pu pd r div dt : ℝ) :
    recurse_option_tree 2 tree o pu pd r div dt 0 0
      = (pu * ((pu * tree 2 2 + pd * tree 1 2) * Real.exp (-1 * (r - div) * dt))
          + pd * ((pu * tree 1 2 + pd * tree 0 2) * Real.exp (-1 * (r - div) * dt)))
        * Real.exp (-1 * (r - div) * dt) := by
  rw [recurse_option_tree_step_european 2 tree o pu pd r div dt 0 0 hE (by norm_num) (by norm_num),
    recurse_option_tree_step_european 2 tree o pu pd r div dt (0 + 1) (0 + 1) hE (by norm_num) (by norm_num),
    recurse_option_tree_step_european 2 tree o pu pd r div dt 0 (0 + 1) hE (by norm_num) (by norm_num),
    recurse_option_tree_base 2 tree o pu pd r div dt (0 + 1 + 1) (0 + 1 + 1) (by norm_num),
    recurse_option_tree_base 2 tree o pu pd r div dt (0 + 1) (0 + 1 + 1) (by norm_num),
    recurse_option_tree_base 2 tree o pu pd r div dt 0 (0 + 1 + 1) (by norm_num)]

theorem recurse_option_tree_two_american (tree : ℕ → ℕ → ℝ) (o : Option)
    (hA : o.american = true) (pu pd r div dt : ℝ) :
    recurse_option_tree 2 tree o pu pd r div dt 0 0
      = max ((pu * max ((pu * tree 2 2 + pd * tree 1 2) * Real.exp (-1 * (r - div) * dt)) (tree 1 1)
            + pd * max ((pu * tree 1 2 + pd * tree 0 2) * Real.exp (-1 * (r - div) * dt)) (tree 0 1))
          * Real.exp (-1 * (r - div) * dt)) (tree 0 0) := by
  rw [recurse_option_tree_step_american 2 tree o pu pd r div dt 0 0 hA (by norm_num) (by norm_num),
    recurse_option_tree_step_american 2 tree o pu pd r div dt (0 + 1) (0 + 1) hA (by norm_num) (by norm_num),
    recurse_option_tree_step_american 2 tree o pu pd r div dt 0 (0 + 1) hA (by norm_num) (by norm_num),
    recurse_option_tree_base 2 tree o pu pd r div dt (0 + 1 + 1) (0 + 1 + 1) (by norm_num),
    recurse_option_tree_base 2 tree o pu pd r div dt (0 + 1) (0 + 1 + 1) (by norm_num),
    recurse_option_tree_base 2 tree o pu pd r div dt 0 (0 + 1 + 1) (by norm_num)]

/-- On a two-period tree whose payoff vanishes everywhere except the top
terminal node, a negative `pu` makes the European value strictly larger
than the American value. -/
theorem two_period_gap (tree : ℕ → ℕ → ℝ) (o_a o_e : Option)
    (hA : o_a.american = true) (hE : o_e.american = false)
    (pu pd r div dt : ℝ)
    (h22 : 0 < tree 2 2) (h12 : tree 1 2 = 0) (h02 : tree 0 2 = 0)
    (h11 : tree 1 1 = 0) (h01 : tree 0 1 = 0) (h00 : tree 0 0 = 0)
    (hpu : pu < 0) :
    recurse_option_tree 2 tree o_a pu pd r div dt 0 0
      < recurse_option_tree 2 tree o_e pu pd r div dt 0 0 := by
  have hDpos : (0 : ℝ) < Real.exp (-1 * (r - div) * dt) := Real.exp_pos _
  rw [recurse_option_tree_two_american tree o_a hA pu pd r div dt,
    recurse_option_tree_two_european tree o_e hE pu pd r div dt,
    h12, h02, h11, h01, h00]
  have hzero : (pu * 0 + pd * 0) * Real.exp (-1 * (r - div) * dt) = 0 := by ring
  rw [hzero, max_self 0]
  have hin : (pu * tree 2 2 + pd * 0) * Real.exp (-1 * (r - div) * dt) < 0 := by
    have h := mul_neg_of_neg_of_pos hpu h22
    nlinarith
  rw [max_eq_right hin.le, hzero, max_self 0]
  have heur : (pu * ((pu * tree 2 2 + pd * 0) * Real.exp (-1 * (r - div) * dt)) + pd * 0)
        * Real.exp (-1 * (r - div) * dt)
      = (pu * Real.exp (-1 * (r - div) * dt)) ^ 2 * tree 2 2 := by ring
  rw [heur]
  exact mul_pos (pow_two_pos_of_ne_zero (mul_ne_zero (ne_of_lt hpu) (ne_of_gt hDpos))) h22

/-- C7 counterexample: for the call on a crashing underlying
(`spot 1`, `strike 3`, `volatility 1`, `r = -2`, `q = 0`, `T = 2`) with two
periods, the derived risk-neutral probability is negative and the binomial
price of the American contract is strictly below the European one. -/
theorem american_price_below_european :
    (calc_option_price crash_amer_call 2).price
      < (calc_option_price crash_euro_call 2).price := by
  have hu : binomial_u crash_amer_call 2 = Real.exp 1 := by
    unfold binomial_u crash_amer_call
    norm_num [Real.sqrt_one]
  have hd : binomial_d crash_amer_call 2 = (Real.exp 1)⁻¹ := by
    unfold binomial_d
    rw [hu, one_div]
  have hpu : binomial_pu crash_amer_call 2
      = (Real.exp (-2) - (Real.exp 1)⁻¹) / (Real.exp 1 - (Real.exp 1)⁻¹) := by
    unfold binomial_pu
    rw [hd, hu]
    norm_num [crash_amer_call]
  have hexp1_pos := Real.exp_pos 1
  have hinv_lt : (Real.exp 1)⁻¹ < Real.exp 1 := by
    rw [← Real.exp_neg]
    exact Real.exp_lt_exp.2 (by norm_num)
  have hinv_le_one : (Real.exp 1)⁻¹ ≤ 1 := by
    rw [← Real.exp_neg]
    have h := Real.exp_le_exp.2 (show (-1 : ℝ) ≤ 0 by norm_num)
    rwa [Real.exp_zero] at h
  have hinv_pos : (0 : ℝ) < (Real.exp 1)⁻¹ := inv_pos.2 hexp1_pos
  have hsq_gt : (3 : ℝ) < Real.exp 1 ^ 2 := by nlinarith [Real.exp_one_gt_d9]
  have hexp1_lt3 : Real.exp 1 < 3 := by nlinarith [Real.exp_one_lt_d9]
  have hpun : binomial_pu crash_amer_call 2 < 0 := by
    rw [hpu]
    apply div_neg_of_neg_of_pos
    · have hm : Real.exp (-2) < (Real.exp 1)⁻¹ := by
        rw [← Real.exp_neg]
        exact Real.exp_lt_exp.2 (by norm_num)
      linarith
    · linarith
  have hpay : ∀ x : ℝ, option_payoff crash_amer_call x = max 0 (x - 3) := fun x => rfl
  have h22 : 0 < option_payoff_tree
      (price_tree 2 crash_amer_call.underlying.base_beginning
        (binomial_u crash_amer_call 2) (binomial_d crash_amer_call 2)) crash_amer_call 2 2 := by
    unfold option_payoff_tree price_tree
    rw [hpay, if_pos (by norm_num), hu, hd]
    have hsimp : crash_amer_call.underlying.base_beginning * Real.exp 1 ^ 2
        * ((Real.exp 1)⁻¹) ^ (2 - 2) = Real.exp 1 ^ 2 := by
      norm_num [crash_amer_call]
    rw [hsimp]
    exact lt_max_iff.2 (Or.inr (by nlinarith [Real.exp_one_gt_d9]))
  have h12 : option_payoff_tree
      (price_tree 2 crash_amer_call.underlying.base_beginning
        (binomial_u crash_amer_call 2) (binomial_d crash_amer_call 2)) crash_amer_call 1 2 = 0 := by
    unfold option_payoff_tree price_tree
    rw [hpay, if_pos (by norm_num), hu, hd]
    have hsimp : crash_amer_call.underlying.base_beginning * Real.exp 1 ^ 1
        * ((Real.exp 1)⁻¹) ^ (2 - 1) = 1 := by
      norm_num [crash_amer_call]
    rw [hsimp]
    exact max_eq_left (by norm_num)
  have h02 : option_payoff_tree
      (price_tree 2 crash_amer_call.underlying.base_beginning
        (binomial_u crash_amer_call 2) (binomial_d crash_amer_call 2)) crash_amer_call 0 2 = 0 := by
    unfold option_payoff_tree price_tree
    rw [hpay, if_pos (by norm_num), hu, hd]
    have hsimp : crash_amer_call.underlying.base_beginning * Real.exp 1 ^ 0
        * ((Real.exp 1)⁻¹) ^ (2 - 0) = ((Real.exp 1)⁻¹) ^ 2 := by
      norm_num [crash_amer_call]
    rw [hsimp]
    exact max_eq_left (by nlinarith)
  have h11 : option_payoff_tree
      (price_tree 2 crash_amer_call.underlying.base_beginning
        (binomial_u crash_amer_call 2) (binomial_d crash_amer_call 2)) crash_amer_call 1 1 = 0 := by
    unfold option_payoff_tree price_tree
    rw [hpay, if_pos (by norm_num), hu, hd]
    have hsimp : crash_amer_call.underlying.base_beginning * Real.exp 1 ^ 1
        * ((Real.exp 1)⁻¹) ^ (1 - 1) = Real.exp 1 := by
      norm_num [crash_amer_call]
    rw [hsimp]
    exact max_eq_left (by linarith)
  have h01 : option_payoff_tree
      (price_tree 2 crash_amer_call.underlying.base_beginning
        (binomial_u crash_amer_call 2) (binomial_d crash_amer_call 2)) crash_amer_call 0 1 = 0 := by
    unfold option_payoff_tree price_tree
    rw [hpay, if_pos (by norm_num), hu, hd]
    have hsimp : crash_amer_call.underlying.base_beginning * Real.exp 1 ^ 0
        * ((Real.exp 1)⁻¹) ^ (1 - 0) = (Real.exp 1)⁻¹ := by
      norm_num [crash_amer_call]
    rw [hsimp]
    exact max_eq_left (by linarith)
  have h00 : option_payoff_tree
      (price_tree 2 crash_amer_call.underlying.base_beginning
        (binomial_u crash_amer_call 2) (binomial_d crash_amer_call 2)) crash_amer_call 0 0 = 0 := by
    unfold option_payoff_tree price_tree
    rw [hpay, if_pos (by norm_num), hu, hd]
    have hsimp : crash_amer_call.underlying.base_beginning * Real.exp 1 ^ 0
        * ((Real.exp 1)⁻¹) ^ (0 - 0) = 1 := by
      norm_num [crash_amer_call]
    rw [hsimp]
    exact max_eq_left (by norm_num)
  have hA : (calc_option_price crash_amer_call 2).price
      = recurse_option_tree 2
        (option_payoff_tree
          (price_tree 2 crash_amer_call.underlying.base_beginning
            (binomial_u crash_amer_call 2) (binomial_d crash_amer_call 2)) crash_amer_call)
        crash_amer_call (binomial_pu crash_amer_call 2) (1 - binomial_pu crash_amer_call 2)
        crash_amer_call.underlying.interest_rate crash_amer_call.underlying.dividend
        (crash_amer_call.T / ((2 : ℕ) : ℝ)) 0 0 := rfl
  have hE : (calc_option_price crash_euro_call 2).price
      = recurse_option_tree 2
        (option_payoff_tree
          (price_tree 2 crash_amer_call.underlying.base_beginning
            (binomial_u crash_amer_call 2) (binomial_d crash_amer_call 2)) crash_amer_call)
        crash_euro_call (binomial_pu crash_amer_call 2) (1 - binomial_pu crash_amer_call 2)
        crash_amer_call.underlying.interest_rate crash_amer_call.underlying.dividend
        (crash_amer_call.T / ((2 : ℕ) : ℝ)) 0 0 := rfl
  rw [hA, hE]
  exact two_period_gap _ crash_amer_call crash_euro_call rfl rfl _ _ _ _ _
    h22 h12 h02 h11 h01 h00 hpun

/-- C7 (amended): for contracts identical except in exercise style, if the
derived risk-neutral probability lies in `[0, 1]` then the binomial price
of the American contract is at least the European price; with `p_u`
outside `[0, 1]` the code can order them the other way. -/
theorem american_ge_european (und : Underlying) (T K : ℝ) (kind : PayoffKind)
    (n : ℕ) (hn : 1 ≤ n)
    (hpu0 : 0 ≤ binomial_pu ⟨und, T, K, true, kind⟩ n)
    (hpu1 : binomial_pu ⟨und, T, K, true, kind⟩ n ≤ 1) :
    (calc_option_price ⟨und, T, K, false, kind⟩ n).price
      ≤ (calc_option_price ⟨und, T, K, true, kind⟩ n).price :=
  recurse_option_tree_american_ge n
    (option_payoff_tree
      (price_tree n und.base_beginning (binomial_u ⟨und, T, K, true, kind⟩ n)
        (binomial_d ⟨und, T, K, true, kind⟩ n)) ⟨und, T, K, true, kind⟩)
    ⟨und, T, K, true, kind⟩ ⟨und, T, K, false, kind⟩ rfl rfl
    (binomial_pu ⟨und, T, K, true, kind⟩ n) (1 - binomial_pu ⟨und, T, K, true, kind⟩ n)
    und.interest_rate und.dividend (T / (n : ℝ))
    hpu0 (by linarith) 0 0

/-- Witness for the amended C7: a put with `r = q = 0`, `volatility 1`,
`T = 2`, two periods, whose risk-neutral probability lies in `[0, 1]`. -/
theorem american_ge_european_witness :
    (0 ≤ binomial_pu ⟨⟨1, 1, 0, 0⟩, 2, 1, true, .put⟩ 2 ∧
      binomial_pu ⟨⟨1, 1, 0, 0⟩, 2, 1, true, .put⟩ 2 ≤ 1) ∧
    (calc_option_price ⟨⟨1, 1, 0, 0⟩, 2, 1, false, .put⟩ 2).price
      ≤ (calc_option_price ⟨⟨1, 1, 0, 0⟩, 2, 1, true, .put⟩ 2).price := by
  have hu : binomial_u ⟨⟨1, 1, 0, 0⟩, 2, 1, true, .put⟩ 2 = Real.exp 1 := by
    unfold binomial_u
    norm_num [Real.sqrt_one]
  have hd : binomial_d ⟨⟨1, 1, 0, 0⟩, 2, 1, true, .put⟩ 2 = (Real.exp 1)⁻¹ := by
    unfold binomial_d
    rw [hu, one_div]
  have hpu : binomial_pu ⟨⟨1, 1, 0, 0⟩, 2, 1, true, .put⟩ 2
      = (1 - (Real.exp 1)⁻¹) / (Real.exp 1 - (Real.exp 1)⁻¹) := by
    unfold binomial_pu
    rw [hd, hu]
    norm_num [Real.exp_zero]
  have hinv_lt : (Real.exp 1)⁻¹ < Real.exp 1 := by
    rw [← Real.exp_neg]
    exact Real.exp_lt_exp.2 (by norm_num)
  have hinv_le_one : (Real.exp 1)⁻¹ ≤ 1 := by
    rw [← Real.exp_neg]
    have h := Real.exp_le_exp.2 (show (-1 : ℝ) ≤ 0 by norm_num)
    rwa [Real.exp_zero] at h
  have hone_le : (1 : ℝ) ≤ Real.exp 1 := Real.one_le_exp (by norm_num)
  have hpu0 : 0 ≤ binomial_pu ⟨⟨1, 1, 0, 0⟩, 2, 1, true, .put⟩ 2 := by
    rw [hpu]
    exact div_nonneg (by linarith) (by linarith)
  have hpu1 : binomial_pu ⟨⟨1, 1, 0, 0⟩, 2, 1, true, .put⟩ 2 ≤ 1 := by
    rw [hpu]
    rw [div_le_one (by linarith)]
    linarith
  exact ⟨⟨hpu0, hpu1⟩,
    american_ge_european ⟨1, 1, 0, 0⟩ 2 1 .put 2 (by norm_num) hpu0 hpu1⟩

end OptionPricing
